import Mathlib

/-!
Verification of the TruFin NEAR staker core against its specification.

The development shallowly embeds the contract's arithmetic and state
transitions in Lean.  Machine integers (`u128`, `u16`, the 256-bit `U256`
type built with `construct_uint`) are modelled as `ℕ`; every operation that
can abort in Rust (checked add/sub/mul overflow, division by zero,
`as_u128` narrowing, `require!` failures) is modelled as an `Option`
returning `none` on abort, mirroring the fact that a NEAR panic reverts the
whole invocation and produces no state.
-/

namespace NearStaker

/-! ## Constants (src/near-staker/src/constants.rs) -/

def FEE_PRECISION : ℕ := 10000

def ONE_NEAR : ℕ := 1000000000000000000000000

def SHARE_PRICE_SCALING_FACTOR : ℕ := 1000000000000000000000000

def NUM_EPOCHS_TO_UNLOCK : ℕ := 4

/-- Exclusive upper bound of the `u128` machine type. -/
def U128_BOUND : ℕ := 2 ^ 128

/-- Exclusive upper bound of the 256-bit `U256` type from `construct_uint`. -/
def U256_BOUND : ℕ := 2 ^ 256

/-! ## Fixed-point math (src/near-staker/src/math.rs) -/

/-- `mul256` multiplies two `u128` into a `U256`; for `u128` inputs the
product always fits, so no abort case is needed. -/
def mul256 (a b : ℕ) : ℕ := a * b

/-- `mul_div_with_rounding` computes `x * y / denominator` in `U256`,
adding 1 when `rounding_up` and the division is inexact.  The `U256`
multiplication panics on overflow and the division panics when the
denominator is zero; both are modelled as `none`. -/
def mul_div_with_rounding (x y denominator : ℕ) (rounding_up : Bool) : Option ℕ :=
  if denominator = 0 then none
  else if x * y < U256_BOUND then
    some (if rounding_up = true ∧ x * y % denominator ≠ 0
          then x * y / denominator + 1
          else x * y / denominator)
  else none

/-- `checked_sub` from math.rs: `a.checked_sub(b).unwrap_or(0)`,
i.e. saturating subtraction, which is exactly `ℕ` subtraction. -/
def checked_sub (a b : ℕ) : ℕ := a - b

/-! ## Share price engine (src/near-staker/src/internal.rs, pure functions) -/

/-- `internal_share_price`: price of one TruNEAR share in NEAR as an exact
rational pair.  The `u128` products `total_staked * FEE_PRECISION` and
`taxable_amount * fee` are overflow-checked, as is the subtraction;
`taxable_amount` uses `saturating_sub`. -/
def internal_share_price (total_staked shares_supply tax_exempt_stake fee : ℕ) :
    Option (ℕ × ℕ) :=
  if shares_supply = 0 then some (SHARE_PRICE_SCALING_FACTOR, 1)
  else
    let taxable_amount := total_staked - tax_exempt_stake
    if total_staked * FEE_PRECISION < U128_BOUND ∧
       taxable_amount * fee < U128_BOUND ∧
       taxable_amount * fee ≤ total_staked * FEE_PRECISION then
      some (mul256 (total_staked * FEE_PRECISION - taxable_amount * fee)
              SHARE_PRICE_SCALING_FACTOR,
            mul256 shares_supply FEE_PRECISION)
    else none

/-- `convert_to_shares`: NEAR amount to TruNEAR shares at the given price,
with the requested rounding.  The final `.as_u128()` narrowing panics when
the result does not fit in `u128`. -/
def convert_to_shares (assets share_price_num share_price_denom : ℕ)
    (rounding_up : Bool) : Option ℕ :=
  (mul_div_with_rounding assets share_price_denom
      (share_price_num / SHARE_PRICE_SCALING_FACTOR) rounding_up).bind
    fun shares => if shares < U128_BOUND then some shares else none

/-- `convert_to_assets`: TruNEAR shares to NEAR amount at the given price,
with the requested rounding. -/
def convert_to_assets (shares share_price_num share_price_denom : ℕ)
    (rounding_up : Bool) : Option ℕ :=
  (mul_div_with_rounding shares
      (share_price_num / SHARE_PRICE_SCALING_FACTOR) share_price_denom rounding_up).bind
    fun assets => if assets < U128_BOUND then some assets else none

end NearStaker

namespace NearStaker

/-! ## C1: functional correctness of `internal_share_price` -/

/-- **C1.** `internal_share_price` returns `(SHARE_PRICE_SCALING_FACTOR, 1)`
when `shares_supply = 0`, and otherwise — whenever the `u128` arithmetic
does not abort — the exact rational pair with
`taxable = total_staked − tax_exempt_stake` (saturating),
`price_num = (total_staked·FEE_PRECISION − taxable·fee)·SHARE_PRICE_SCALING_FACTOR`
and `price_denom = shares_supply·FEE_PRECISION`. -/
theorem internal_share_price_correct
    (total_staked shares_supply tax_exempt_stake fee : ℕ) :
    (shares_supply = 0 →
      internal_share_price total_staked shares_supply tax_exempt_stake fee =
        some (SHARE_PRICE_SCALING_FACTOR, 1)) ∧
    (shares_supply ≠ 0 →
      total_staked * FEE_PRECISION < U128_BOUND →
      (total_staked - tax_exempt_stake) * fee < U128_BOUND →
      (total_staked - tax_exempt_stake) * fee ≤ total_staked * FEE_PRECISION →
      internal_share_price total_staked shares_supply tax_exempt_stake fee =
        some ((total_staked * FEE_PRECISION -
                 (total_staked - tax_exempt_stake) * fee) *
                SHARE_PRICE_SCALING_FACTOR,
              shares_supply * FEE_PRECISION)) := by
  constructor
  · intro h0
    simp [internal_share_price, h0]
  · intro hs h1 h2 h3
    simp [internal_share_price, hs, mul256, h1, h2, h3]

/-- Witness for C1 at the spec's concrete scenario
(`total_staked = 346`, `shares_supply = 200`, `tax_exempt_stake = 246`,
`fee = 500`): the taxed numerator is `(346·10000 − 100·500) = 3410000`. -/
theorem internal_share_price_correct_witness :
    internal_share_price 346 200 246 500 =
      some (3410000 * SHARE_PRICE_SCALING_FACTOR, 2000000) :=
  (internal_share_price_correct 346 200 246 500).2
    (by decide) (by decide) (by decide) (by decide)

end NearStaker

namespace NearStaker

/-! ## C9: the fee is always below `FEE_PRECISION`, so the taxed
subtraction in `internal_share_price` cannot underflow -/

/-- `set_fee` (src/near-staker/src/lib.rs): rejects `new_fee >= FEE_PRECISION`
(`require!(new_fee < FEE_PRECISION, ERR_FEE_TOO_LARGE)`). -/
def set_fee (new_fee : ℕ) : Option ℕ :=
  if new_fee < FEE_PRECISION then some new_fee else none

/-- Reachable values of the contract's `fee` field: `new` initialises it to
`0`, and the only mutator is `set_fee`. -/
inductive feeReachable : ℕ → Prop where
  | contractInit : feeReachable 0
  | setFeeStep (f n g : ℕ) : feeReachable f → set_fee n = some g → feeReachable g

/-- **C9.** Every reachable `fee` is strictly below `FEE_PRECISION`, and
consequently, with `taxable_amount` the saturating difference
`total_staked − tax_exempt_stake`, the `u128` subtraction
`total_staked·FEE_PRECISION − taxable_amount·fee` inside
`internal_share_price` never underflows. -/
theorem fee_below_precision_no_underflow (fee : ℕ) (h : feeReachable fee) :
    fee < FEE_PRECISION ∧
    ∀ total_staked tax_exempt_stake : ℕ,
      checked_sub total_staked tax_exempt_stake * fee ≤
        total_staked * FEE_PRECISION := by
  induction h with
  | contractInit =>
    refine ⟨by decide, fun T E => ?_⟩
    simp [checked_sub]
  | setFeeStep f n g _ hset _ =>
    have hg : g < FEE_PRECISION := by
      by_cases hn : n < FEE_PRECISION
      · simp [set_fee, hn] at hset
        omega
      · simp [set_fee, hn] at hset
    refine ⟨hg, fun T E => ?_⟩
    calc checked_sub T E * g ≤ T * g :=
          Nat.mul_le_mul_right g (Nat.sub_le T E)
      _ ≤ T * FEE_PRECISION := Nat.mul_le_mul_left T (Nat.le_of_lt hg)

/-- Witness for C9: the fee value `500` is reachable via `set_fee`, and at
`total_staked = 346`, `tax_exempt_stake = 246` the taxed subtraction does
not underflow. -/
theorem fee_below_precision_no_underflow_witness :
    500 < FEE_PRECISION ∧ checked_sub 346 246 * 500 ≤ 346 * FEE_PRECISION := by
  have hreach : feeReachable 500 :=
    .setFeeStep 0 500 500 .contractInit (by decide)
  exact ⟨(fee_below_precision_no_underflow 500 hreach).1,
         (fee_below_precision_no_underflow 500 hreach).2 346 246⟩

/-! ## C3: round-trip conversion bound -/

/-- **Counterexample to C3 as stated.**  At the spec's own concrete price
(`total_staked = 346`, `shares_supply = 200`, `tax_exempt_stake = 246`,
`fee = 500`), converting the value `1` to shares with rounding down yields
`0` shares, and converting back with rounding up returns `0 < 1`; the claim
`convert_to_assets(convert_to_shares(v, p, false), p, true) ≥ v` is false
at `v = 1`. -/
theorem round_trip_ge_counterexample :
    internal_share_price 346 200 246 500 =
      some (3410000 * SHARE_PRICE_SCALING_FACTOR, 2000000) ∧
    convert_to_shares 1 (3410000 * SHARE_PRICE_SCALING_FACTOR) 2000000 false =
      some 0 ∧
    convert_to_assets 0 (3410000 * SHARE_PRICE_SCALING_FACTOR) 2000000 true =
      some 0 ∧
    ¬ (1 ≤ (0 : ℕ)) := by
  refine ⟨by decide, by decide, by decide, by decide⟩


/-- Inversion for `convert_to_shares`: a successful conversion comes from a
successful `mul_div_with_rounding` with a `u128`-sized result. -/
theorem convert_to_shares_some_inv (v num denom : ℕ) (b : Bool) (s : ℕ)
    (h : convert_to_shares v num denom b = some s) :
    mul_div_with_rounding v denom (num / SHARE_PRICE_SCALING_FACTOR) b = some s := by
  unfold convert_to_shares at h
  cases hmd : mul_div_with_rounding v denom (num / SHARE_PRICE_SCALING_FACTOR) b with
  | none =>
    rw [hmd] at h
    simp at h
  | some s0 =>
    rw [hmd] at h
    have h2 : (if s0 < U128_BOUND then some s0 else (none : Option ℕ)) = some s := h
    by_cases hb : s0 < U128_BOUND
    · rw [if_pos hb] at h2
      exact h2
    · rw [if_neg hb] at h2
      exact absurd h2 (by simp)

/-- Inversion for `convert_to_assets`. -/
theorem convert_to_assets_some_inv (s num denom : ℕ) (b : Bool) (a : ℕ)
    (h : convert_to_assets s num denom b = some a) :
    mul_div_with_rounding s (num / SHARE_PRICE_SCALING_FACTOR) denom b = some a := by
  unfold convert_to_assets at h
  cases hmd : mul_div_with_rounding s (num / SHARE_PRICE_SCALING_FACTOR) denom b with
  | none =>
    rw [hmd] at h
    simp at h
  | some a0 =>
    rw [hmd] at h
    have h2 : (if a0 < U128_BOUND then some a0 else (none : Option ℕ)) = some a := h
    by_cases hb : a0 < U128_BOUND
    · rw [if_pos hb] at h2
      exact h2
    · rw [if_neg hb] at h2
      exact absurd h2 (by simp)

/-- Core rounding lemma: multiplying by `y`, dividing down by `q`, then
multiplying by `q` and dividing by `y` with rounding up never exceeds the
starting value. -/
theorem mul_div_down_up_le (x y q s a : ℕ)
    (h1 : mul_div_with_rounding x y q false = some s)
    (h2 : mul_div_with_rounding s q y true = some a) : a ≤ x := by
  unfold mul_div_with_rounding at h1 h2
  by_cases hq : q = 0
  · simp [hq] at h1
  by_cases hy : y = 0
  · simp [hy] at h2
  by_cases hb1 : x * y < U256_BOUND
  · by_cases hb2 : s * q < U256_BOUND
    · rw [if_neg hq, if_pos hb1] at h1
      rw [if_neg hy, if_pos hb2] at h2
      have hs : x * y / q = s := by
        have := Option.some_inj.1 h1
        simpa using this
      have hsq : s * q ≤ x * y := by
        rw [← hs]
        exact Nat.div_mul_le_self (x * y) q
      by_cases hrem : s * q % y ≠ 0
      · have ha : s * q / y + 1 = a := by
          have := Option.some_inj.1 h2
          simpa [hrem] using this
        have hlt : s * q < x * y := by
          rcases Nat.lt_or_ge (s * q) (x * y) with h | h
          · exact h
          · exfalso
            have heq : s * q = x * y := Nat.le_antisymm hsq h
            apply hrem
            rw [heq]
            exact Nat.mul_mod_left x y
        have hdiv : s * q / y < x :=
          (Nat.div_lt_iff_lt_mul (Nat.pos_of_ne_zero hy)).2 hlt
        omega
      · have ha : s * q / y = a := by
          have := Option.some_inj.1 h2
          simpa [hrem] using this
        have hle : s * q / y ≤ x * y / y := Nat.div_le_div_right hsq
        rw [Nat.mul_div_cancel x (Nat.pos_of_ne_zero hy)] at hle
        omega
    · rw [if_neg hy, if_neg hb2] at h2
      exact absurd h2 (by simp)
  · rw [if_neg hq, if_neg hb1] at h1
    exact absurd h1 (by simp)

/-- **C3 (amended).**  For every price pair produced by
`internal_share_price`, the round trip with rounding down then up never
returns **more** than the starting amount:
`convert_to_assets(convert_to_shares(v, p, false), p, true) ≤ v`, and
symmetrically `convert_to_shares(convert_to_assets(s, p, false), p, true) ≤ s`
— the rounding can only lose dust for the caller, never manufacture value
against the vault. -/
theorem round_trip_favors_vault
    (total_staked shares_supply tax_exempt_stake fee num denom : ℕ)
    (_hp : internal_share_price total_staked shares_supply tax_exempt_stake fee =
            some (num, denom)) :
    (∀ v s a, convert_to_shares v num denom false = some s →
       convert_to_assets s num denom true = some a → a ≤ v) ∧
    (∀ s a t, convert_to_assets s num denom false = some a →
       convert_to_shares a num denom true = some t → t ≤ s) := by
  clear _hp
  constructor
  · intro v s a hs ha
    exact mul_div_down_up_le v denom (num / SHARE_PRICE_SCALING_FACTOR) s a
      (convert_to_shares_some_inv v num denom false s hs)
      (convert_to_assets_some_inv s num denom true a ha)
  · intro s a t ha ht
    exact mul_div_down_up_le s (num / SHARE_PRICE_SCALING_FACTOR) denom a t
      (convert_to_assets_some_inv s num denom false a ha)
      (convert_to_shares_some_inv a num denom true t ht)

/-- Witness for C3 (amended) at the spec's concrete price: converting
`3` NEAR to shares (down) gives `1` share, converting back (up) gives
`2 ≤ 3`. -/
theorem round_trip_favors_vault_witness :
    convert_to_shares 3 (3410000 * SHARE_PRICE_SCALING_FACTOR) 2000000 false =
      some 1 ∧
    convert_to_assets 1 (3410000 * SHARE_PRICE_SCALING_FACTOR) 2000000 true =
      some 2 ∧
    (2 : ℕ) ≤ 3 := by
  refine ⟨by decide, by decide, ?_⟩
  exact (round_trip_favors_vault 346 200 246 500
    (3410000 * SHARE_PRICE_SCALING_FACTOR) 2000000 (by decide)).1 3 1 2
    (by decide) (by decide)

end NearStaker

namespace NearStaker

/-! ## Helper inversion lemmas for the arithmetic primitives -/

/-- Inversion for a successful round-down `mul_div_with_rounding`. -/
theorem mul_div_down_some_inv (x y d r : ℕ)
    (h : mul_div_with_rounding x y d false = some r) :
    d ≠ 0 ∧ x * y < U256_BOUND ∧ r = x * y / d := by
  unfold mul_div_with_rounding at h
  by_cases hd : d = 0
  · simp [hd] at h
  by_cases hb : x * y < U256_BOUND
  · refine ⟨hd, hb, ?_⟩
    rw [if_neg hd, if_pos hb] at h
    have h2 := Option.some_inj.1 h
    simpa using h2.symm
  · rw [if_neg hd, if_neg hb] at h
    exact absurd h (by simp)

/-- Inversion for `internal_share_price` with a nonzero supply. -/
theorem internal_share_price_pos_supply_inv
    (total_staked shares_supply tax_exempt_stake fee n d : ℕ)
    (hS : shares_supply ≠ 0)
    (h : internal_share_price total_staked shares_supply tax_exempt_stake fee =
           some (n, d)) :
    total_staked * FEE_PRECISION < U128_BOUND ∧
    (total_staked - tax_exempt_stake) * fee < U128_BOUND ∧
    (total_staked - tax_exempt_stake) * fee ≤ total_staked * FEE_PRECISION ∧
    n = (total_staked * FEE_PRECISION - (total_staked - tax_exempt_stake) * fee) *
          SHARE_PRICE_SCALING_FACTOR ∧
    d = shares_supply * FEE_PRECISION := by
  unfold internal_share_price at h
  rw [if_neg hS] at h
  by_cases hcond : total_staked * FEE_PRECISION < U128_BOUND ∧
      (total_staked - tax_exempt_stake) * fee < U128_BOUND ∧
      (total_staked - tax_exempt_stake) * fee ≤ total_staked * FEE_PRECISION
  · rw [if_pos hcond] at h
    have h2 := Option.some_inj.1 h
    refine ⟨hcond.1, hcond.2.1, hcond.2.2, ?_, ?_⟩
    · exact (congrArg Prod.fst h2).symm
    · exact (congrArg Prod.snd h2).symm
  · rw [if_neg hcond] at h
    exact absurd h (by simp)

/-- Inversion for `internal_share_price` with zero supply. -/
theorem internal_share_price_zero_supply_inv
    (total_staked tax_exempt_stake fee n d : ℕ)
    (h : internal_share_price total_staked 0 tax_exempt_stake fee = some (n, d)) :
    n = SHARE_PRICE_SCALING_FACTOR ∧ d = 1 := by
  unfold internal_share_price at h
  rw [if_pos rfl] at h
  have h2 := Option.some_inj.1 h
  exact ⟨(congrArg Prod.fst h2).symm, (congrArg Prod.snd h2).symm⟩

/-! ## C2: fee collection and the share price -/

/-- State touched by `internal_collect_fees`
(src/near-staker/src/internal.rs): the vault totals, the fee, the TruNEAR
total supply and the treasury's share balance. -/
structure FeeState where
  total_staked : ℕ
  tax_exempt_stake : ℕ
  fee : ℕ
  total_supply : ℕ
  treasury_balance : ℕ
deriving DecidableEq

/-- `internal_collect_fees`: reads the current share price, computes the
NEAR fee on the taxable amount (rounding down), converts it to shares at
the current price (rounding down), and if the result is positive mints it
to the treasury and sets `tax_exempt_stake = total_staked`. -/
def internal_collect_fees (s : FeeState) : Option FeeState :=
  (internal_share_price s.total_staked s.total_supply s.tax_exempt_stake
      s.fee).bind fun p =>
  (mul_div_with_rounding (s.total_staked - s.tax_exempt_stake) s.fee
      FEE_PRECISION false).bind fun near_fee =>
  if near_fee < U128_BOUND then
    (convert_to_shares near_fee p.1 p.2 false).bind fun share_increase =>
    if 0 < share_increase then
      if s.treasury_balance + share_increase < U128_BOUND ∧
         s.total_supply + share_increase < U128_BOUND then
        some { s with
                treasury_balance := s.treasury_balance + share_increase,
                total_supply := s.total_supply + share_increase,
                tax_exempt_stake := s.total_staked }
      else none
    else some s
  else none

/-- **Counterexample to C2 as stated.**  At the spec's concrete scenario
(`total_staked = 346`, `tax_exempt_stake = 246`, `fee = 500`,
`shares_supply = 200`), `collect_fees` mints 2 treasury shares and the
exact rational price moves from `3410000·SCALE / 2000000` to
`3460000·SCALE / 2020000`, which are **not** equal (the price rises
slightly because the minted shares are rounded down). -/
theorem collect_fees_price_change_counterexample :
    internal_collect_fees ⟨346, 246, 500, 200, 0⟩ =
      some ⟨346, 346, 500, 202, 2⟩ ∧
    internal_share_price 346 200 246 500 =
      some (3410000 * SHARE_PRICE_SCALING_FACTOR, 2000000) ∧
    internal_share_price 346 202 346 500 =
      some (3460000 * SHARE_PRICE_SCALING_FACTOR, 2020000) ∧
    3410000 * SHARE_PRICE_SCALING_FACTOR * 2020000 ≠
      3460000 * SHARE_PRICE_SCALING_FACTOR * 2000000 := by
  refine ⟨by decide, by decide, by decide, by decide⟩

/-- **C2 (amended).**  For every state with
`tax_exempt_stake ≤ total_staked` and `fee < FEE_PRECISION`, a completed
`collect_fees` call never **decreases** the exact rational share price:
post-price ≥ pre-price (`n·d2 ≤ n2·d`), with equality whenever zero fee
shares are minted.  Exact equality does not hold in general because the
minted treasury shares are rounded down. -/
theorem collect_fees_price_non_decreasing
    (s s2 : FeeState) (n d n2 d2 : ℕ)
    (hfee : s.fee < FEE_PRECISION)
    (hte : s.tax_exempt_stake ≤ s.total_staked)
    (hc : internal_collect_fees s = some s2)
    (hp : internal_share_price s.total_staked s.total_supply
            s.tax_exempt_stake s.fee = some (n, d))
    (hp2 : internal_share_price s2.total_staked s2.total_supply
            s2.tax_exempt_stake s2.fee = some (n2, d2)) :
    n * d2 ≤ n2 * d := by
  unfold internal_collect_fees at hc
  rw [hp] at hc
  simp only [Option.some_bind] at hc
  cases hmd : mul_div_with_rounding (s.total_staked - s.tax_exempt_stake)
      s.fee FEE_PRECISION false with
  | none =>
    rw [hmd] at hc
    simp at hc
  | some nf =>
    rw [hmd] at hc
    simp only [Option.some_bind] at hc
    obtain ⟨-, -, hnf_eq⟩ := mul_div_down_some_inv _ _ _ _ hmd
    by_cases hnf : nf < U128_BOUND
    · rw [if_pos hnf] at hc
      cases hcs : convert_to_shares nf n d false with
      | none =>
        rw [hcs] at hc
        simp at hc
      | some delta =>
        rw [hcs] at hc
        simp only [Option.some_bind] at hc
        by_cases hdelta : 0 < delta
        · rw [if_pos hdelta] at hc
          by_cases hov : s.treasury_balance + delta < U128_BOUND ∧
              s.total_supply + delta < U128_BOUND
          · rw [if_pos hov] at hc
            have hs2 := (Option.some_inj.1 hc).symm
            rw [hs2] at hp2
            dsimp only at hp2
            obtain ⟨hmd_ne, -, hdelta_eq⟩ :=
              mul_div_down_some_inv _ _ _ _ (convert_to_shares_some_inv _ _ _ _ _ hcs)
            by_cases hS : s.total_supply = 0
            · -- zero supply: pre-price is (SCALE, 1)
              rw [hS] at hp
              obtain ⟨hn, hd⟩ := internal_share_price_zero_supply_inv _ _ _ _ _ hp
              subst hn hd
              rw [hS] at hp2
              have hsupp2 : (0 : ℕ) + delta ≠ 0 := by omega
              obtain ⟨hTP, -, -, hn2, hd2⟩ :=
                internal_share_price_pos_supply_inv _ _ _ _ _ _ hsupp2 hp2
              have htax0 : s.total_staked - s.total_staked = 0 := by omega
              rw [htax0, Nat.zero_mul, Nat.sub_zero] at hn2
              have hSS : SHARE_PRICE_SCALING_FACTOR / SHARE_PRICE_SCALING_FACTOR = 1 := by
                decide
              have hdnf : delta = nf := by
                rw [hSS, Nat.mul_one, Nat.div_one] at hdelta_eq
                exact hdelta_eq
              have htaxpos : 0 < s.total_staked - s.tax_exempt_stake := by
                rcases Nat.eq_zero_or_pos (s.total_staked - s.tax_exempt_stake) with h0 | h
                · rw [h0, Nat.zero_mul, Nat.zero_div] at hnf_eq
                  omega
                · exact h
              have hffp : (s.total_staked - s.tax_exempt_stake) * s.fee <
                  (s.total_staked - s.tax_exempt_stake) * FEE_PRECISION :=
                mul_lt_mul_of_pos_left hfee htaxpos
              have hnf_lt : nf < s.total_staked - s.tax_exempt_stake := by
                rw [hnf_eq]
                exact (Nat.div_lt_iff_lt_mul (by decide : 0 < FEE_PRECISION)).2 hffp
              have hdT : delta ≤ s.total_staked := by omega
              rw [hn2, hd2]
              have h5 : delta * FEE_PRECISION ≤ s.total_staked * FEE_PRECISION :=
                Nat.mul_le_mul_right _ hdT
              calc SHARE_PRICE_SCALING_FACTOR * ((0 + delta) * FEE_PRECISION)
                  = delta * FEE_PRECISION * SHARE_PRICE_SCALING_FACTOR := by ring
                _ ≤ s.total_staked * FEE_PRECISION * SHARE_PRICE_SCALING_FACTOR :=
                    Nat.mul_le_mul_right _ h5
                _ = s.total_staked * FEE_PRECISION * SHARE_PRICE_SCALING_FACTOR * 1 := by
                    ring
            · -- positive supply
              obtain ⟨hTP, hxf, hsub, hn, hd⟩ :=
                internal_share_price_pos_supply_inv _ _ _ _ _ _ hS hp
              have hsupp2 : s.total_supply + delta ≠ 0 := by omega
              obtain ⟨-, -, -, hn2, hd2⟩ :=
                internal_share_price_pos_supply_inv _ _ _ _ _ _ hsupp2 hp2
              have htax0 : s.total_staked - s.total_staked = 0 := by omega
              rw [htax0, Nat.zero_mul, Nat.sub_zero] at hn2
              set T := s.total_staked with hT
              set E := s.tax_exempt_stake with hE
              set A := T * FEE_PRECISION - (T - E) * s.fee with hA
              have hqA : n / SHARE_PRICE_SCALING_FACTOR = A := by
                rw [hn]
                exact Nat.mul_div_cancel A (by decide : 0 < SHARE_PRICE_SCALING_FACTOR)
              rw [hqA] at hdelta_eq
              have h1 : A * delta ≤ nf * d := by
                rw [hdelta_eq]
                calc A * (nf * d / A) = nf * d / A * A := by ring
                  _ ≤ nf * d := Nat.div_mul_le_self (nf * d) A
              have h2 : nf * FEE_PRECISION ≤ (T - E) * s.fee := by
                rw [hnf_eq]
                exact Nat.div_mul_le_self ((T - E) * s.fee) FEE_PRECISION
              have h3 : A * delta ≤ (T - E) * s.fee * s.total_supply := by
                calc A * delta ≤ nf * d := h1
                  _ = nf * FEE_PRECISION * s.total_supply := by rw [hd]; ring
                  _ ≤ (T - E) * s.fee * s.total_supply :=
                      Nat.mul_le_mul_right _ h2
              have hTP_split : T * FEE_PRECISION = A + (T - E) * s.fee := by
                rw [hA]
                omega
              have hmain : A * (s.total_supply + delta) ≤
                  T * FEE_PRECISION * s.total_supply := by
                calc A * (s.total_supply + delta)
                    = A * s.total_supply + A * delta := by ring
                  _ ≤ A * s.total_supply + (T - E) * s.fee * s.total_supply := by omega
                  _ = (A + (T - E) * s.fee) * s.total_supply := by ring
                  _ = T * FEE_PRECISION * s.total_supply := by rw [hTP_split]
              rw [hn, hd, hn2, hd2]
              calc A * SHARE_PRICE_SCALING_FACTOR * ((s.total_supply + delta) * FEE_PRECISION)
                  = A * (s.total_supply + delta) *
                      (SHARE_PRICE_SCALING_FACTOR * FEE_PRECISION) := by ring
                _ ≤ T * FEE_PRECISION * s.total_supply *
                      (SHARE_PRICE_SCALING_FACTOR * FEE_PRECISION) :=
                    Nat.mul_le_mul_right _ hmain
                _ = T * FEE_PRECISION * SHARE_PRICE_SCALING_FACTOR *
                      (s.total_supply * FEE_PRECISION) := by ring
          · rw [if_neg hov] at hc
            exact absurd hc (by simp)
        · rw [if_neg hdelta] at hc
          have hs2 : s = s2 := Option.some_inj.1 hc
          rw [← hs2] at hp2
          rw [hp] at hp2
          obtain ⟨hn, hd⟩ : n = n2 ∧ d = d2 := by
            have h2 := Option.some_inj.1 hp2
            simpa [Prod.ext_iff] using h2
          rw [hn, hd]
    · rw [if_neg hnf] at hc
      exact absurd hc (by simp)

/-- Witness for C2 (amended) at the spec's concrete scenario: the price
moves from `3410000·SCALE/2000000` up to `3460000·SCALE/2020000`. -/
theorem collect_fees_price_non_decreasing_witness :
    internal_collect_fees ⟨346, 246, 500, 200, 0⟩ =
      some ⟨346, 346, 500, 202, 2⟩ ∧
    3410000 * SHARE_PRICE_SCALING_FACTOR * 2020000 ≤
      3460000 * SHARE_PRICE_SCALING_FACTOR * 2000000 := by
  refine ⟨by decide, ?_⟩
  exact collect_fees_price_non_decreasing ⟨346, 246, 500, 200, 0⟩
    ⟨346, 346, 500, 202, 2⟩ (3410000 * SHARE_PRICE_SCALING_FACTOR) 2000000
    (3460000 * SHARE_PRICE_SCALING_FACTOR) 2020000
    (by decide) (by decide) (by decide) (by decide) (by decide)

end NearStaker

namespace NearStaker

/-! ## C5: distribution no-op condition and distribution amount -/

/-- An allocation record (src/near-staker/src/types.rs): committed NEAR
amount and the share price at allocation time. -/
structure Allocation where
  near_amount : ℕ
  share_price_num : ℕ
  share_price_denom : ℕ
deriving DecidableEq

/-- `internal_calculate_distribution_amount`: shares owed at the stored
allocation price minus shares required at the global price, both rounded
down; the `U256` subtraction panics on underflow and the final
`.as_u128()` on overflow. -/
def internal_calculate_distribution_amount (a : Allocation)
    (global_share_price_num global_share_price_denom : ℕ) : Option ℕ :=
  (mul_div_with_rounding a.near_amount a.share_price_denom
      (a.share_price_num / SHARE_PRICE_SCALING_FACTOR) false).bind fun shares_alloc =>
  (mul_div_with_rounding a.near_amount global_share_price_denom
      (global_share_price_num / SHARE_PRICE_SCALING_FACTOR) false).bind fun shares_global =>
  if shares_global ≤ shares_alloc then
    if shares_alloc - shares_global < U128_BOUND then some (shares_alloc - shares_global)
    else none
  else none

/-- State touched by `internal_distribute` for one (distributor, recipient)
pair: the allocation record, the distribution fee and the three relevant
TruNEAR balances. -/
structure DState where
  alloc : Allocation
  distribution_fee : ℕ
  distributor_balance : ℕ
  treasury_balance : ℕ
  recipient_balance : ℕ
deriving DecidableEq

/-- The information returned by a successful distribution. -/
structure DistributionInfo where
  shares_amount : ℕ
  near_amount : ℕ
  refund_amount : ℕ
  fees : ℕ
deriving DecidableEq

/-- Result of `internal_distribute`: `Ok(None)` (no-op), `Err(..)`
(business error returned to the caller), or `Ok(Some(info))` with the
post-state. -/
inductive DistResult where
  | noop : DistResult
  | err : DistResult
  | ok (info : DistributionInfo) (post : DState) : DistResult
deriving DecidableEq

/-- Payout stage of `internal_distribute`, after the distribution fee has
been moved to the treasury: converts the remaining shares to NEAR, then
either pays NEAR (requiring sufficient attached deposit) or transfers
TruNEAR shares (requiring sufficient distributor balance; the fungible
token `internal_transfer` itself requires a positive amount), and finally
resets the stored allocation price to the global price. -/
def distribute_payout (s : DState)
    (shares_to_move global_price_num global_price_denom : ℕ)
    (in_near : Bool) (attached fees : ℕ) : Option DistResult :=
  (convert_to_assets shares_to_move global_price_num global_price_denom false).bind
    fun near_amount =>
  if in_near = true then
    if attached < near_amount then some .err
    else
      some (.ok ⟨shares_to_move, near_amount, attached - near_amount, fees⟩
        { s with alloc := ⟨s.alloc.near_amount, global_price_num, global_price_denom⟩ })
  else
    if s.distributor_balance < shares_to_move then some .err
    else if 0 < shares_to_move then
      if s.recipient_balance + shares_to_move < U128_BOUND then
        some (.ok ⟨shares_to_move, near_amount, attached, fees⟩
          { s with
              distributor_balance := s.distributor_balance - shares_to_move,
              recipient_balance := s.recipient_balance + shares_to_move,
              alloc := ⟨s.alloc.near_amount, global_price_num, global_price_denom⟩ })
      else none
    else none


/-- `internal_distribute` (src/near-staker/src/internal.rs): returns
`Ok(None)` when the `U256` integer quotients of the stored and global
prices coincide; otherwise computes the distribution amount, deducts the
distribution fee `gross·distribution_fee/FEE_PRECISION` (transferred to
the treasury when positive) and pays out the remainder. -/
def internal_distribute (s : DState)
    (global_price_num global_price_denom : ℕ) (in_near : Bool) (attached : ℕ) :
    Option DistResult :=
  if s.alloc.share_price_denom = 0 ∨ global_price_denom = 0 then none
  else if s.alloc.share_price_num / s.alloc.share_price_denom =
            global_price_num / global_price_denom then
    some .noop
  else
    (internal_calculate_distribution_amount s.alloc global_price_num
        global_price_denom).bind fun gross =>
    if gross * s.distribution_fee < U128_BOUND then
      if gross * s.distribution_fee / FEE_PRECISION ≤ gross then
        if 0 < gross * s.distribution_fee / FEE_PRECISION then
          if gross * s.distribution_fee / FEE_PRECISION ≤ s.distributor_balance then
            if s.treasury_balance + gross * s.distribution_fee / FEE_PRECISION <
                U128_BOUND then
              distribute_payout
                { s with
                    distributor_balance :=
                      s.distributor_balance -
                        gross * s.distribution_fee / FEE_PRECISION,
                    treasury_balance :=
                      s.treasury_balance +
                        gross * s.distribution_fee / FEE_PRECISION }
                (gross - gross * s.distribution_fee / FEE_PRECISION)
                global_price_num global_price_denom in_near attached
                (gross * s.distribution_fee / FEE_PRECISION)
            else none
          else none
        else
          distribute_payout s (gross - gross * s.distribution_fee / FEE_PRECISION)
            global_price_num global_price_denom in_near attached
            (gross * s.distribution_fee / FEE_PRECISION)
      else none
    else none

/-- **Counterexample to C5 as stated.**  With the stored allocation price
`(SCALE², SCALE)` (price 1.0) and global price `(2·SCALE² + SCALE, 2·SCALE)`
(price 1 + 1/(2·SCALE)), the two exact rationals are different and the
distribution formula frees 5 shares for a 10-NEAR allocation, yet
`internal_distribute` is a no-op because the `U256` **integer quotients**
`num/denom` collide — so "no-op iff numerically equal as exact rationals"
is false. -/
theorem distribute_noop_counterexample :
    internal_distribute
      ⟨⟨10 * ONE_NEAR,
         SHARE_PRICE_SCALING_FACTOR * SHARE_PRICE_SCALING_FACTOR,
         SHARE_PRICE_SCALING_FACTOR⟩, 0, 10 * ONE_NEAR, 0, 0⟩
      (2 * SHARE_PRICE_SCALING_FACTOR * SHARE_PRICE_SCALING_FACTOR +
        SHARE_PRICE_SCALING_FACTOR)
      (2 * SHARE_PRICE_SCALING_FACTOR) false 0 = some .noop ∧
    SHARE_PRICE_SCALING_FACTOR * SHARE_PRICE_SCALING_FACTOR *
        (2 * SHARE_PRICE_SCALING_FACTOR) ≠
      (2 * SHARE_PRICE_SCALING_FACTOR * SHARE_PRICE_SCALING_FACTOR +
        SHARE_PRICE_SCALING_FACTOR) * SHARE_PRICE_SCALING_FACTOR ∧
    internal_calculate_distribution_amount
      ⟨10 * ONE_NEAR,
        SHARE_PRICE_SCALING_FACTOR * SHARE_PRICE_SCALING_FACTOR,
        SHARE_PRICE_SCALING_FACTOR⟩
      (2 * SHARE_PRICE_SCALING_FACTOR * SHARE_PRICE_SCALING_FACTOR +
        SHARE_PRICE_SCALING_FACTOR)
      (2 * SHARE_PRICE_SCALING_FACTOR) = some 5 := by
  refine ⟨by decide, by decide, by decide⟩

/-- The payout stage never yields the no-op result. -/
theorem distribute_payout_ne_noop (s : DState)
    (shares_to_move global_price_num global_price_denom : ℕ)
    (in_near : Bool) (attached fees : ℕ) :
    distribute_payout s shares_to_move global_price_num global_price_denom
      in_near attached fees ≠ some .noop := by
  unfold distribute_payout
  cases hca : convert_to_assets shares_to_move global_price_num
      global_price_denom false with
  | none => simp
  | some near_amount =>
    simp only [Option.some_bind]
    by_cases hin : in_near = true
    · rw [if_pos hin]
      by_cases hat : attached < near_amount
      · rw [if_pos hat]
        simp
      · rw [if_neg hat]
        simp
    · rw [if_neg hin]
      by_cases hbal : s.distributor_balance < shares_to_move
      · rw [if_pos hbal]
        simp
      · rw [if_neg hbal]
        by_cases hpos : 0 < shares_to_move
        · rw [if_pos hpos]
          by_cases hov : s.recipient_balance + shares_to_move < U128_BOUND
          · rw [if_pos hov]
            simp
          · rw [if_neg hov]
            simp
        · rw [if_neg hpos]
          simp

/-- A successful payout reports exactly the shares it was asked to move
and the fee it was given. -/
theorem distribute_payout_ok_inv (s : DState)
    (shares_to_move global_price_num global_price_denom : ℕ)
    (in_near : Bool) (attached fees : ℕ) (info : DistributionInfo) (post : DState)
    (h : distribute_payout s shares_to_move global_price_num global_price_denom
          in_near attached fees = some (.ok info post)) :
    info.shares_amount = shares_to_move ∧ info.fees = fees := by
  unfold distribute_payout at h
  cases hca : convert_to_assets shares_to_move global_price_num
      global_price_denom false with
  | none =>
    rw [hca] at h
    simp at h
  | some near_amount =>
    rw [hca] at h
    simp only [Option.some_bind] at h
    by_cases hin : in_near = true
    · rw [if_pos hin] at h
      by_cases hat : attached < near_amount
      · rw [if_pos hat] at h
        exact absurd (Option.some_inj.1 h) (by simp)
      · rw [if_neg hat] at h
        have h2 := Option.some_inj.1 h
        cases h2
        exact ⟨rfl, rfl⟩
    · rw [if_neg hin] at h
      by_cases hbal : s.distributor_balance < shares_to_move
      · rw [if_pos hbal] at h
        exact absurd (Option.some_inj.1 h) (by simp)
      · rw [if_neg hbal] at h
        by_cases hpos : 0 < shares_to_move
        · rw [if_pos hpos] at h
          by_cases hov : s.recipient_balance + shares_to_move < U128_BOUND
          · rw [if_pos hov] at h
            have h2 := Option.some_inj.1 h
            cases h2
            exact ⟨rfl, rfl⟩
          · rw [if_neg hov] at h
            exact absurd h (by simp)
        · rw [if_neg hpos] at h
          exact absurd h (by simp)

/-- **C5 (amended).**  `internal_distribute` is a no-op exactly when the
`U256` **integer quotients** of the stored and global price pairs are
equal (not when the exact rationals are equal); and whenever it completes
with a distribution, the gross amount distributed (net shares moved plus
the distribution fee) equals
`shares_at_allocation − shares_at_global`, where
`shares_at_allocation = mulDivRound(amount, denom, num/SCALE, down)` and
`shares_at_global = mulDivRound(amount, gdenom, gnum/SCALE, down)`. -/
theorem distribute_noop_iff_quotients_equal
    (s : DState) (global_price_num global_price_denom : ℕ)
    (in_near : Bool) (attached : ℕ)
    (hd : s.alloc.share_price_denom ≠ 0) (hg : global_price_denom ≠ 0) :
    (internal_distribute s global_price_num global_price_denom in_near attached =
        some .noop ↔
      s.alloc.share_price_num / s.alloc.share_price_denom =
        global_price_num / global_price_denom) ∧
    (∀ info post shares_alloc shares_global,
      internal_distribute s global_price_num global_price_denom in_near attached =
        some (.ok info post) →
      mul_div_with_rounding s.alloc.near_amount s.alloc.share_price_denom
        (s.alloc.share_price_num / SHARE_PRICE_SCALING_FACTOR) false =
        some shares_alloc →
      mul_div_with_rounding s.alloc.near_amount global_price_denom
        (global_price_num / SHARE_PRICE_SCALING_FACTOR) false =
        some shares_global →
      info.shares_amount + info.fees = shares_alloc - shares_global) := by
  have hden : ¬ (s.alloc.share_price_denom = 0 ∨ global_price_denom = 0) := by
    push_neg
    exact ⟨hd, hg⟩
  by_cases heq : s.alloc.share_price_num / s.alloc.share_price_denom =
      global_price_num / global_price_denom
  · constructor
    · unfold internal_distribute
      rw [if_neg hden, if_pos heq]
      simp [heq]
    · intro info post sa sg hok hsa hsg
      unfold internal_distribute at hok
      rw [if_neg hden, if_pos heq] at hok
      exact absurd (Option.some_inj.1 hok) (by simp)
  · constructor
    · unfold internal_distribute
      rw [if_neg hden, if_neg heq]
      constructor
      · intro hbind
        exfalso
        cases hic : internal_calculate_distribution_amount s.alloc
            global_price_num global_price_denom with
        | none =>
          rw [hic] at hbind
          simp at hbind
        | some gross =>
          rw [hic] at hbind
          simp only [Option.some_bind] at hbind
          by_cases hov : gross * s.distribution_fee < U128_BOUND
          · rw [if_pos hov] at hbind
            by_cases hfle : gross * s.distribution_fee / FEE_PRECISION ≤ gross
            · rw [if_pos hfle] at hbind
              by_cases hfpos : 0 < gross * s.distribution_fee / FEE_PRECISION
              · rw [if_pos hfpos] at hbind
                by_cases hb1 : gross * s.distribution_fee / FEE_PRECISION ≤
                    s.distributor_balance
                · rw [if_pos hb1] at hbind
                  by_cases hb2 : s.treasury_balance +
                      gross * s.distribution_fee / FEE_PRECISION < U128_BOUND
                  · rw [if_pos hb2] at hbind
                    exact distribute_payout_ne_noop _ _ _ _ _ _ _ hbind
                  · rw [if_neg hb2] at hbind
                    exact absurd hbind (by simp)
                · rw [if_neg hb1] at hbind
                  exact absurd hbind (by simp)
              · rw [if_neg hfpos] at hbind
                exact distribute_payout_ne_noop _ _ _ _ _ _ _ hbind
            · rw [if_neg hfle] at hbind
              exact absurd hbind (by simp)
          · rw [if_neg hov] at hbind
            exact absurd hbind (by simp)
      · intro h
        exact absurd h heq
    · intro info post sa sg hok hsa hsg
      unfold internal_distribute at hok
      rw [if_neg hden, if_neg heq] at hok
      cases hic : internal_calculate_distribution_amount s.alloc
          global_price_num global_price_denom with
      | none =>
        rw [hic] at hok
        simp at hok
      | some gross =>
        rw [hic] at hok
        simp only [Option.some_bind] at hok
        have hgross : gross = sa - sg ∧ sg ≤ sa := by
          unfold internal_calculate_distribution_amount at hic
          rw [hsa] at hic
          simp only [Option.some_bind] at hic
          rw [hsg] at hic
          simp only [Option.some_bind] at hic
          by_cases hle : sg ≤ sa
          · rw [if_pos hle] at hic
            by_cases hub : sa - sg < U128_BOUND
            · rw [if_pos hub] at hic
              exact ⟨(Option.some_inj.1 hic).symm, hle⟩
            · rw [if_neg hub] at hic
              exact absurd hic (by simp)
          · rw [if_neg hle] at hic
            exact absurd hic (by simp)
        by_cases hov : gross * s.distribution_fee < U128_BOUND
        · rw [if_pos hov] at hok
          by_cases hfle : gross * s.distribution_fee / FEE_PRECISION ≤ gross
          · rw [if_pos hfle] at hok
            by_cases hfpos : 0 < gross * s.distribution_fee / FEE_PRECISION
            · rw [if_pos hfpos] at hok
              by_cases hb1 : gross * s.distribution_fee / FEE_PRECISION ≤
                  s.distributor_balance
              · rw [if_pos hb1] at hok
                by_cases hb2 : s.treasury_balance +
                    gross * s.distribution_fee / FEE_PRECISION < U128_BOUND
                · rw [if_pos hb2] at hok
                  obtain ⟨h1, h2⟩ := distribute_payout_ok_inv _ _ _ _ _ _ _ _ _ hok
                  rw [h1, h2]
                  omega
                · rw [if_neg hb2] at hok
                  exact absurd hok (by simp)
              · rw [if_neg hb1] at hok
                exact absurd hok (by simp)
            · rw [if_neg hfpos] at hok
              obtain ⟨h1, h2⟩ := distribute_payout_ok_inv _ _ _ _ _ _ _ _ _ hok
              rw [h1, h2]
              omega
          · rw [if_neg hfle] at hok
            exact absurd hok (by simp)
        · rw [if_neg hov] at hok
          exact absurd hok (by simp)

/-- Witness for C5 (amended): with a stored price of exactly 1.0 and a
global price of exactly 2.0 the quotients differ, 10 NEAR frees 5 shares
(gross), and with a 10% distribution fee the payout moves 4 net shares
plus 1 fee share. -/
theorem distribute_noop_iff_quotients_equal_witness :
    internal_distribute
      ⟨⟨10 * ONE_NEAR,
         SHARE_PRICE_SCALING_FACTOR * SHARE_PRICE_SCALING_FACTOR,
         SHARE_PRICE_SCALING_FACTOR⟩, 1000, 10 * ONE_NEAR, 0, 0⟩
      (2 * (SHARE_PRICE_SCALING_FACTOR * SHARE_PRICE_SCALING_FACTOR))
      SHARE_PRICE_SCALING_FACTOR false 0 ≠ some .noop := by
  intro hnoop
  have h := (distribute_noop_iff_quotients_equal
    ⟨⟨10 * ONE_NEAR,
       SHARE_PRICE_SCALING_FACTOR * SHARE_PRICE_SCALING_FACTOR,
       SHARE_PRICE_SCALING_FACTOR⟩, 1000, 10 * ONE_NEAR, 0, 0⟩
    (2 * (SHARE_PRICE_SCALING_FACTOR * SHARE_PRICE_SCALING_FACTOR))
    SHARE_PRICE_SCALING_FACTOR false 0 (by decide) (by decide)).1.1 hnoop
  exact absurd h (by decide)

end NearStaker

namespace NearStaker

/-! ## C6: conservation of share balances -/

/-- Summing a list after `set`: the new sum plus the old entry equals the
old sum plus the new entry. -/
theorem sum_set_add (l : List ℕ) (i v : ℕ) (h : i < l.length) :
    (l.set i v).sum + l.getD i 0 = l.sum + v := by
  induction l generalizing i with
  | nil => simp at h
  | cons a t ih =>
    cases i with
    | zero => simp [List.set]; omega
    | succ n =>
      simp only [List.set, List.sum_cons, List.getD_cons_succ]
      have hn : n < t.length := by simpa using h
      have := ih n hn
      omega

/-- The TruNEAR fungible-token state: one balance per registered account
(indexed) plus the redundantly tracked total supply. -/
structure TokenState where
  balances : List ℕ
  total_supply : ℕ
deriving DecidableEq

/-- `internal_mint` (src/near-staker/src/internal.rs): credits the
recipient's balance and increases `total_supply`; both `u128` additions
are overflow-checked. -/
def internal_mint (t : TokenState) (recipient amt : ℕ) : Option TokenState :=
  if recipient < t.balances.length then
    if t.balances.getD recipient 0 + amt < U128_BOUND ∧
       t.total_supply + amt < U128_BOUND then
      some ⟨t.balances.set recipient (t.balances.getD recipient 0 + amt),
            t.total_supply + amt⟩
    else none
  else none

/-- `internal_burn` (src/near-staker/src/internal.rs): requires the user
balance to cover the burn (`require!`), then debits the balance and
`total_supply` (checked subtraction). -/
def internal_burn (t : TokenState) (user amt : ℕ) : Option TokenState :=
  if user < t.balances.length then
    if amt ≤ t.balances.getD user 0 then
      if amt ≤ t.total_supply then
        some ⟨t.balances.set user (t.balances.getD user 0 - amt),
              t.total_supply - amt⟩
      else none
    else none
  else none

/-- `internal_transfer` of the NEAR fungible-token standard (the external
`near-contract-standards` crate used by distribution): requires distinct
registered accounts, a positive amount and sufficient sender balance;
moves the amount without touching `total_supply`. -/
def internal_transfer (t : TokenState) (sender receiver amt : ℕ) :
    Option TokenState :=
  if sender < t.balances.length ∧ receiver < t.balances.length ∧
     sender ≠ receiver ∧ 0 < amt then
    if amt ≤ t.balances.getD sender 0 then
      if t.balances.getD receiver 0 + amt < U128_BOUND then
        some ⟨(t.balances.set sender (t.balances.getD sender 0 - amt)).set
                receiver
                ((t.balances.set sender (t.balances.getD sender 0 - amt)).getD
                  receiver 0 + amt),
              t.total_supply⟩
      else none
    else none
  else none

/-- The operations that touch share balances. -/
inductive TokenOp where
  | mint (recipient amt : ℕ) : TokenOp
  | burn (user amt : ℕ) : TokenOp
  | transfer (sender receiver amt : ℕ) : TokenOp
deriving DecidableEq

/-- One balance-touching step. -/
def token_step (t : TokenState) : TokenOp → Option TokenState
  | .mint recipient amt => internal_mint t recipient amt
  | .burn user amt => internal_burn t user amt
  | .transfer sender receiver amt => internal_transfer t sender receiver amt

/-- Running a sequence of balance-touching operations; a panicking step
aborts the whole run. -/
def token_run (t : TokenState) : List TokenOp → Option TokenState
  | [] => some t
  | op :: ops => (token_step t op).bind fun t2 => token_run t2 ops

/-- The token state created at contract initialisation: `n` registered
accounts with zero balance (the treasury among them) and zero supply. -/
def token_new (n : ℕ) : TokenState := ⟨List.replicate n 0, 0⟩

/-- Single-step preservation of the conservation invariant. -/
theorem token_step_conservation (t t2 : TokenState) (op : TokenOp)
    (hinv : t.balances.sum = t.total_supply)
    (h : token_step t op = some t2) :
    t2.balances.sum = t2.total_supply := by
  cases op with
  | mint recipient amt =>
    simp only [token_step] at h
    unfold internal_mint at h
    by_cases hlen : recipient < t.balances.length
    · rw [if_pos hlen] at h
      by_cases hov : t.balances.getD recipient 0 + amt < U128_BOUND ∧
          t.total_supply + amt < U128_BOUND
      · rw [if_pos hov] at h
        have h2 := Option.some_inj.1 h
        rw [← h2]
        have hsum := sum_set_add t.balances recipient
          (t.balances.getD recipient 0 + amt) hlen
        dsimp only
        omega
      · rw [if_neg hov] at h
        exact absurd h (by simp)
    · rw [if_neg hlen] at h
      exact absurd h (by simp)
  | burn user amt =>
    simp only [token_step] at h
    unfold internal_burn at h
    by_cases hlen : user < t.balances.length
    · rw [if_pos hlen] at h
      by_cases hbal : amt ≤ t.balances.getD user 0
      · rw [if_pos hbal] at h
        by_cases hsup : amt ≤ t.total_supply
        · rw [if_pos hsup] at h
          have h2 := Option.some_inj.1 h
          rw [← h2]
          have hsum := sum_set_add t.balances user
            (t.balances.getD user 0 - amt) hlen
          dsimp only
          omega
        · rw [if_neg hsup] at h
          exact absurd h (by simp)
      · rw [if_neg hbal] at h
        exact absurd h (by simp)
    · rw [if_neg hlen] at h
      exact absurd h (by simp)
  | transfer sender receiver amt =>
    simp only [token_step] at h
    unfold internal_transfer at h
    by_cases hgood : sender < t.balances.length ∧ receiver < t.balances.length ∧
        sender ≠ receiver ∧ 0 < amt
    · rw [if_pos hgood] at h
      by_cases hbal : amt ≤ t.balances.getD sender 0
      · rw [if_pos hbal] at h
        by_cases hov : t.balances.getD receiver 0 + amt < U128_BOUND
        · rw [if_pos hov] at h
          have h2 := Option.some_inj.1 h
          rw [← h2]
          have hlen1 : receiver <
              (t.balances.set sender (t.balances.getD sender 0 - amt)).length := by
            rw [List.length_set]
            exact hgood.2.1
          have hsum1 := sum_set_add t.balances sender
            (t.balances.getD sender 0 - amt) hgood.1
          have hsum2 := sum_set_add
            (t.balances.set sender (t.balances.getD sender 0 - amt)) receiver
            ((t.balances.set sender (t.balances.getD sender 0 - amt)).getD
              receiver 0 + amt) hlen1
          dsimp only
          omega
        · rw [if_neg hov] at h
          exact absurd h (by simp)
      · rw [if_neg hbal] at h
        exact absurd h (by simp)
    · rw [if_neg hgood] at h
      exact absurd h (by simp)

/-- Multi-step preservation. -/
theorem token_run_conservation (ops : List TokenOp) :
    ∀ t t2 : TokenState, t.balances.sum = t.total_supply →
      token_run t ops = some t2 → t2.balances.sum = t2.total_supply := by
  induction ops with
  | nil =>
    intro t t2 hinv h
    unfold token_run at h
    rw [← Option.some_inj.1 h]
    exact hinv
  | cons op ops ih =>
    intro t t2 hinv h
    unfold token_run at h
    cases hstep : token_step t op with
    | none =>
      rw [hstep] at h
      simp at h
    | some t1 =>
      rw [hstep] at h
      simp only [Option.some_bind] at h
      exact ih t1 t2 (token_step_conservation t t1 op hinv hstep) h

/-- **C6.**  Starting from the freshly initialised token state, every
completed sequence of balance-touching operations (`internal_mint`,
`internal_burn`, fungible-token `internal_transfer` — the primitives used
by stake, unstake, allocate, deallocate, distribute and fee collection)
preserves `sum(share balances) = total_supply`. -/
theorem share_balance_conservation (n : ℕ) (ops : List TokenOp) (t : TokenState)
    (h : token_run (token_new n) ops = some t) :
    t.balances.sum = t.total_supply := by
  have hinit : (token_new n).balances.sum = (token_new n).total_supply := by
    unfold token_new
    simp
  exact token_run_conservation ops (token_new n) t hinit h

/-- Witness for C6: a concrete mint/transfer/burn run ends in a state
whose balances sum to its total supply. -/
theorem share_balance_conservation_witness :
    token_run (token_new 3) [.mint 0 100, .transfer 0 1 30, .burn 1 10] =
      some ⟨[70, 20, 0], 90⟩ ∧
    ([70, 20, 0] : List ℕ).sum = 90 := by
  refine ⟨by decide, ?_⟩
  exact share_balance_conservation 3 [.mint 0 100, .transfer 0 1 30, .burn 1 10]
    ⟨[70, 20, 0], 90⟩ (by decide)

end NearStaker

namespace NearStaker

/-! ## The unstake settlement flow (C4, C8, C10) -/

/-- Per-pool registry entry (src/near-staker/src/types.rs `Pool`): locally
tracked staked/unstaked balances and the last-unstake epoch. -/
structure PoolSt where
  total_staked : ℕ
  total_unstaked : ℕ
  last_unstake : Option ℕ
deriving DecidableEq

/-- An unstake request record (nonce-keyed). -/
structure UnstakeReq where
  near_amount : ℕ
  epoch : ℕ
deriving DecidableEq

/-- The staker state touched by the unstake flow, for one caller and one
delegation pool. -/
structure StSt where
  total_staked : ℕ
  tax_exempt_stake : ℕ
  fee : ℕ
  total_supply : ℕ
  caller_balance : ℕ
  pool : PoolSt
  unstake_nonce : ℕ
  unstake_requests : List (ℕ × UnstakeReq)
  withdrawn_amount : ℕ
  is_locked : Bool
  is_paused : Bool
  caller_whitelisted : Bool
  total_staked_last_updated_at : ℕ
deriving DecidableEq

/-- The arguments captured by the `finalize_unstake` continuation. -/
structure PendingUnstake where
  amount : ℕ
  shares_amount : ℕ
  withdraw_occurred : Bool
  attached : ℕ
  epoch : ℕ
deriving DecidableEq

/-- Outcome of the synchronous part of an unstake: either an immediate
refund of the attached deposit (zero-share early return, no promises) or a
pending remote call with the pessimistically updated state. -/
inductive UnstakeOutcome where
  | refund (state : StSt) (refund_amount : ℕ) : UnstakeOutcome
  | pending (state : StSt) (p : PendingUnstake) : UnstakeOutcome
deriving DecidableEq

/-- Whether `send_unstake_promises` sequences a `withdraw` call before the
new `unstake` call (matured unstaked value sits unpulled on the pool). -/
def withdrawOccurred (pool : PoolSt) (epoch : ℕ) : Bool :=
  match pool.last_unstake with
  | none => false
  | some last =>
      decide (last + NUM_EPOCHS_TO_UNLOCK ≤ epoch) && decide (0 < pool.total_unstaked)

/-- `send_unstake_promises` (src/near-staker/src/internal.rs): converts
the amount to shares at the current price; on zero shares it releases the
lock and refunds the attached deposit without issuing any remote call;
otherwise it burns the shares and decrements `total_staked` and
`tax_exempt_stake` (saturating) **before** the remote call, and issues the
promises captured in a `PendingUnstake`. -/
def send_unstake_promises (s : StSt) (amount attached epoch : ℕ) :
    Option UnstakeOutcome :=
  (internal_share_price s.total_staked s.total_supply s.tax_exempt_stake
      s.fee).bind fun p =>
  (convert_to_shares amount p.1 p.2 false).bind fun shares_amount =>
  if shares_amount = 0 then
    some (.refund { s with is_locked := false } attached)
  else
    if shares_amount ≤ s.caller_balance then
      if shares_amount ≤ s.total_supply then
        if amount ≤ s.total_staked then
          some (.pending
            { s with
                caller_balance := s.caller_balance - shares_amount,
                total_supply := s.total_supply - shares_amount,
                total_staked := s.total_staked - amount,
                tax_exempt_stake := s.tax_exempt_stake - amount }
            { amount := amount, shares_amount := shares_amount,
              withdraw_occurred := withdrawOccurred s.pool epoch,
              attached := attached, epoch := epoch })
        else none
      else none
    else none

/-- The unstake-lock gate: pass when the pool has never unstaked, when the
last unstake happened this epoch, or when the unlock window has elapsed. -/
def unstake_gate (last_unstake : Option ℕ) (current_epoch : ℕ) : Bool :=
  match last_unstake with
  | none => true
  | some last =>
      decide (last = current_epoch) ||
        decide (last + NUM_EPOCHS_TO_UNLOCK ≤ current_epoch)

/-- `max_withdraw`: the caller's share balance converted to NEAR, rounding
up. -/
def max_withdraw (s : StSt) : Option ℕ :=
  (internal_share_price s.total_staked s.total_supply s.tax_exempt_stake
      s.fee).bind fun p =>
  convert_to_assets s.caller_balance p.1 p.2 true

/-- `internal_check_unstake_amount`: requires the request not to exceed
`max_withdraw`, clamps to the full balance when the remainder would drop
below one NEAR, and requires the pool to hold enough stake. -/
def internal_check_unstake_amount (s : StSt) (amount : ℕ) : Option ℕ :=
  (max_withdraw s).bind fun mw =>
  if amount ≤ mw then
    if mw - amount < ONE_NEAR then
      if mw ≤ s.pool.total_staked then some mw else none
    else
      if amount ≤ s.pool.total_staked then some amount else none
  else none

/-- `internal_unstake` (src/near-staker/src/internal.rs): in-sync check,
storage-deposit check, the unstake-lock gate, then amount checks and the
promise dispatch.  A `none` result models a synchronous panic: no remote
call is issued and all state changes revert. -/
def internal_unstake (storage_cost : ℕ) (s : StSt) (amount attached epoch : ℕ) :
    Option UnstakeOutcome :=
  if s.total_staked_last_updated_at = epoch then
    if storage_cost ≤ attached then
      if unstake_gate s.pool.last_unstake epoch = true then
        (internal_check_unstake_amount s amount).bind fun ua =>
          send_unstake_promises s ua attached epoch
      else none
    else none
  else none

/-- Public `unstake` entry point (src/near-staker/src/lib.rs): pause,
reentrancy-lock and whitelist checks, taking the lock before dispatch. -/
def unstake (storage_cost : ℕ) (s : StSt) (amount attached epoch : ℕ) :
    Option UnstakeOutcome :=
  if s.is_paused = true then none
  else if s.is_locked = true then none
  else if s.caller_whitelisted = true then
    internal_unstake storage_cost { s with is_locked := true } amount attached epoch
  else none

/-- `finalize_unstake` (src/near-staker/src/lib.rs): the continuation.  On
remote failure it releases the lock, re-mints the burned shares and
refunds the attached deposit — and nothing else.  On success it updates
the pool, decrements `total_staked`/`tax_exempt_stake` (again), creates
the unstake request, and refunds any attached deposit beyond the storage
cost.  Returns the post-state and the amount transferred to the caller. -/
def finalize_unstake (storage_cost : ℕ) (s : StSt) (p : PendingUnstake)
    (result : Option ℕ) : Option (StSt × ℕ) :=
  match result with
  | none =>
      if s.caller_balance + p.shares_amount < U128_BOUND ∧
         s.total_supply + p.shares_amount < U128_BOUND then
        some ({ s with
                  is_locked := false,
                  caller_balance := s.caller_balance + p.shares_amount,
                  total_supply := s.total_supply + p.shares_amount },
              p.attached)
      else none
  | some _new_unstaked =>
      if p.withdraw_occurred = true then
        if s.withdrawn_amount + s.pool.total_unstaked < U128_BOUND then
          if p.amount ≤ s.pool.total_staked then
            if p.amount ≤ s.total_staked then
              some ({ s with
                        is_locked := false,
                        withdrawn_amount :=
                          s.withdrawn_amount + s.pool.total_unstaked,
                        pool := { total_staked := s.pool.total_staked - p.amount,
                                  total_unstaked := p.amount,
                                  last_unstake := some p.epoch },
                        total_staked := s.total_staked - p.amount,
                        tax_exempt_stake := s.tax_exempt_stake - p.amount,
                        unstake_nonce := s.unstake_nonce + 1,
                        unstake_requests := s.unstake_requests ++
                          [(s.unstake_nonce + 1, ⟨p.amount, p.epoch⟩)] },
                    if storage_cost < p.attached then p.attached - storage_cost
                    else 0)
            else none
          else none
        else none
      else
        if s.pool.total_unstaked + p.amount < U128_BOUND then
          if p.amount ≤ s.pool.total_staked then
            if p.amount ≤ s.total_staked then
              some ({ s with
                        is_locked := false,
                        pool := { total_staked := s.pool.total_staked - p.amount,
                                  total_unstaked :=
                                    s.pool.total_unstaked + p.amount,
                                  last_unstake := some p.epoch },
                        total_staked := s.total_staked - p.amount,
                        tax_exempt_stake := s.tax_exempt_stake - p.amount,
                        unstake_nonce := s.unstake_nonce + 1,
                        unstake_requests := s.unstake_requests ++
                          [(s.unstake_nonce + 1, ⟨p.amount, p.epoch⟩)] },
                    if storage_cost < p.attached then p.attached - storage_cost
                    else 0)
            else none
          else none
        else none

end NearStaker

namespace NearStaker

/-! ## C4: failure-path rollback of `finalize_unstake` -/

/-- **C4 is violated by the code.**  Concrete run: a vault with
10 NEAR staked, price 1.0, a caller holding all 10 NEAR worth of shares,
unstaking 2 NEAR.  `send_unstake_promises` burns the shares and decrements
`total_staked`/`tax_exempt_stake` to 8 NEAR before the remote call.  When
the remote call fails, `finalize_unstake` re-mints the 2 NEAR worth of
shares, refunds the whole attached deposit and releases the lock — but it
leaves `total_staked = 8 NEAR` and `tax_exempt_stake = 8 NEAR`: the
pre-call decrements are **not** undone, so the rollback is not full and
the share price drops.  (On the success path the same `total_staked`
decrement is applied a second time, contradicting the repository's own
test `test_unstake_decreases_total_staked_by_unstake_amount`.) -/
theorem finalize_unstake_failure_keeps_decrements :
    send_unstake_promises
        ⟨10 * ONE_NEAR, 10 * ONE_NEAR, 500, 10 * ONE_NEAR, 10 * ONE_NEAR,
         ⟨10 * ONE_NEAR, 0, none⟩, 0, [], 0, true, false, true, 5⟩
        (2 * ONE_NEAR) ONE_NEAR 5 =
      some (.pending
        ⟨8 * ONE_NEAR, 8 * ONE_NEAR, 500, 8 * ONE_NEAR, 8 * ONE_NEAR,
         ⟨10 * ONE_NEAR, 0, none⟩, 0, [], 0, true, false, true, 5⟩
        ⟨2 * ONE_NEAR, 2 * ONE_NEAR, false, ONE_NEAR, 5⟩) ∧
    finalize_unstake 0
        ⟨8 * ONE_NEAR, 8 * ONE_NEAR, 500, 8 * ONE_NEAR, 8 * ONE_NEAR,
         ⟨10 * ONE_NEAR, 0, none⟩, 0, [], 0, true, false, true, 5⟩
        ⟨2 * ONE_NEAR, 2 * ONE_NEAR, false, ONE_NEAR, 5⟩ none =
      some (⟨8 * ONE_NEAR, 8 * ONE_NEAR, 500, 10 * ONE_NEAR, 10 * ONE_NEAR,
             ⟨10 * ONE_NEAR, 0, none⟩, 0, [], 0, false, false, true, 5⟩,
            ONE_NEAR) ∧
    8 * ONE_NEAR ≠ 10 * ONE_NEAR := by
  refine ⟨by decide, by decide, by decide⟩

/-! ## C8: the unstake-lock gate -/

/-- **C8.**  With `last_unstake = some last`, an unstake request in epoch
`epoch` is rejected synchronously (no remote call, no durable state
change — the whole invocation reverts) unless `last = epoch` or
`last + NUM_EPOCHS_TO_UNLOCK ≤ epoch`; with `last_unstake = none` the gate
always passes; in particular a second unstake strictly inside the unlock
window and in a later epoch than the first is rejected. -/
theorem unstake_lock_gate_correct
    (storage_cost : ℕ) (s : StSt) (amount attached epoch last : ℕ) :
    (s.pool.last_unstake = some last → last ≠ epoch →
      ¬ (last + NUM_EPOCHS_TO_UNLOCK ≤ epoch) →
      internal_unstake storage_cost s amount attached epoch = none) ∧
    (unstake_gate none epoch = true) ∧
    (s.pool.last_unstake = some last → last < epoch →
      epoch < last + NUM_EPOCHS_TO_UNLOCK →
      internal_unstake storage_cost s amount attached epoch = none) := by
  have hmain : s.pool.last_unstake = some last → last ≠ epoch →
      ¬ (last + NUM_EPOCHS_TO_UNLOCK ≤ epoch) →
      internal_unstake storage_cost s amount attached epoch = none := by
    intro hl hne hnle
    unfold internal_unstake
    by_cases hsync : s.total_staked_last_updated_at = epoch
    · rw [if_pos hsync]
      by_cases hdep : storage_cost ≤ attached
      · rw [if_pos hdep]
        have hgate : unstake_gate s.pool.last_unstake epoch = false := by
          rw [hl]
          unfold unstake_gate
          simp [hne, hnle]
        rw [hgate]
        simp
      · rw [if_neg hdep]
    · rw [if_neg hsync]
  refine ⟨hmain, rfl, fun hl hlt hwin => ?_⟩
  exact hmain hl (by omega) (by omega)

/-- Witness for C8: a pool whose last unstake was at epoch 10 rejects an
unstake at epoch 12 (strictly inside the 4-epoch unlock window, later
epoch). -/
theorem unstake_lock_gate_correct_witness :
    internal_unstake 1
      ⟨0, 0, 0, 0, 0, ⟨0, 0, some 10⟩, 0, [], 0, false, false, true, 12⟩
      0 5 12 = none :=
  (unstake_lock_gate_correct 1
    ⟨0, 0, 0, 0, 0, ⟨0, 0, some 10⟩, 0, [], 0, false, false, true, 12⟩
    0 5 12 10).2.2 rfl (by decide) (by decide)

end NearStaker

namespace NearStaker

/-! ## C10: zero-share unstake is a pure refund -/

/-- **C10.**  When the checked (post-clamping) unstake amount converts to
zero shares at the current price, the public `unstake` entry point burns
nothing, issues no remote call, creates no request, leaves the entire
state unchanged (in particular the lock ends clear), and transfers the
whole attached deposit back to the caller. -/
theorem unstake_zero_shares_full_refund
    (storage_cost : ℕ) (s : StSt) (amount attached epoch ua num denom : ℕ)
    (hpause : s.is_paused = false)
    (hlock : s.is_locked = false)
    (hwl : s.caller_whitelisted = true)
    (hsync : s.total_staked_last_updated_at = epoch)
    (hdep : storage_cost ≤ attached)
    (hgate : unstake_gate s.pool.last_unstake epoch = true)
    (hua : internal_check_unstake_amount s amount = some ua)
    (hp : internal_share_price s.total_staked s.total_supply
            s.tax_exempt_stake s.fee = some (num, denom))
    (hzero : convert_to_shares ua num denom false = some 0) :
    unstake storage_cost s amount attached epoch = some (.refund s attached) := by
  have h1 : ¬ (s.is_paused = true) := by simp [hpause]
  have h2 : ¬ (s.is_locked = true) := by simp [hlock]
  unfold unstake
  rw [if_neg h1, if_neg h2, if_pos hwl]
  unfold internal_unstake
  rw [if_pos (show ({ s with is_locked := true } : StSt).total_staked_last_updated_at
        = epoch from hsync)]
  rw [if_pos hdep]
  rw [if_pos (show unstake_gate ({ s with is_locked := true } : StSt).pool.last_unstake
        epoch = true from hgate)]
  rw [show internal_check_unstake_amount { s with is_locked := true } amount
        = some ua from hua]
  simp only [Option.some_bind]
  unfold send_unstake_promises
  rw [show internal_share_price
        ({ s with is_locked := true } : StSt).total_staked
        ({ s with is_locked := true } : StSt).total_supply
        ({ s with is_locked := true } : StSt).tax_exempt_stake
        ({ s with is_locked := true } : StSt).fee = some (num, denom) from hp]
  simp only [Option.some_bind]
  rw [hzero]
  simp only [Option.some_bind]
  rw [if_pos trivial]
  have hres : (⟨s.total_staked, s.tax_exempt_stake, s.fee, s.total_supply,
      s.caller_balance, s.pool, s.unstake_nonce, s.unstake_requests,
      s.withdrawn_amount, false, s.is_paused, s.caller_whitelisted,
      s.total_staked_last_updated_at⟩ : StSt) = s := by
    rw [← hlock]
  rw [hres]

/-- Witness for C10, showing the zero-share branch is reachable at the
public interface: a whitelisted caller with zero share balance unstaking
0 from an in-sync, unlocked vault gets the whole attached deposit back and
the state is untouched. -/
theorem unstake_zero_shares_full_refund_witness :
    unstake 1000000000000000000000
      ⟨5 * ONE_NEAR, 5 * ONE_NEAR, 0, 5 * ONE_NEAR, 0,
       ⟨5 * ONE_NEAR, 0, none⟩, 0, [], 0, false, false, true, 7⟩
      0 10000000000000000000000 7 =
      some (.refund
        ⟨5 * ONE_NEAR, 5 * ONE_NEAR, 0, 5 * ONE_NEAR, 0,
         ⟨5 * ONE_NEAR, 0, none⟩, 0, [], 0, false, false, true, 7⟩
        10000000000000000000000) :=
  unstake_zero_shares_full_refund 1000000000000000000000
    ⟨5 * ONE_NEAR, 5 * ONE_NEAR, 0, 5 * ONE_NEAR, 0,
     ⟨5 * ONE_NEAR, 0, none⟩, 0, [], 0, false, false, true, 7⟩
    0 10000000000000000000000 7 0
    (5 * ONE_NEAR * FEE_PRECISION * SHARE_PRICE_SCALING_FACTOR)
    (5 * ONE_NEAR * FEE_PRECISION)
    rfl rfl rfl rfl (by decide) rfl (by decide) (by decide) (by decide)

end NearStaker

namespace NearStaker

/-! ## C7: all-or-nothing refresh of `total_staked` -/

/-- Per-pool fields touched by the refresh. -/
structure RefreshPool where
  total_staked : ℕ
  total_unstaked : ℕ
deriving DecidableEq

/-- Vault state touched by `total_staked_callback`. -/
structure RefreshState where
  pools : List RefreshPool
  total_staked : ℕ
  total_staked_last_updated_at : ℕ
  is_locked : Bool
deriving DecidableEq

/-- The first loop of `total_staked_callback`: collect every pool's
queried total balance; a failed or unparsable promise result aborts the
collection. -/
def collect_results : List (Option ℕ) → Option (List ℕ)
  | [] => some []
  | none :: _ => none
  | some b :: rest => (collect_results rest).map fun bs => b :: bs

/-- The second loop: set each pool's `total_staked` to its queried balance
minus its tracked `total_unstaked` (a checked `u128` subtraction — a panic
reverts the whole callback). -/
def update_pools : List RefreshPool → List ℕ → Option (List RefreshPool)
  | [], [] => some []
  | p :: ps, b :: bs =>
      if p.total_unstaked ≤ b then
        (update_pools ps bs).map fun qs =>
          ({ total_staked := b - p.total_unstaked,
             total_unstaked := p.total_unstaked } : RefreshPool) :: qs
      else none
  | [], _ :: _ => none
  | _ :: _, [] => none

/-- `total_staked_callback` (src/near-staker/src/lib.rs): releases the
lock; if any promise result failed or failed to deserialize, returns with
no other mutation; otherwise updates every pool, sums the new pool stakes
into the vault's `total_staked` and stamps the current epoch. -/
def total_staked_callback (s : RefreshState) (results : List (Option ℕ))
    (epoch : ℕ) : Option RefreshState :=
  match collect_results results with
  | none => some { s with is_locked := false }
  | some bals =>
      (update_pools s.pools bals).bind fun qs =>
      if (qs.map RefreshPool.total_staked).sum < U128_BOUND then
        some { pools := qs,
               total_staked := (qs.map RefreshPool.total_staked).sum,
               total_staked_last_updated_at := epoch,
               is_locked := false }
      else none

/-- A failed entry makes the collection fail. -/
theorem collect_results_of_mem_none (results : List (Option ℕ))
    (h : none ∈ results) : collect_results results = none := by
  induction results with
  | nil => simp at h
  | cons r rest ih =>
    cases r with
    | none => rfl
    | some b =>
      have hrest : none ∈ rest := by
        rcases List.mem_cons.1 h with h1 | h1
        · exact absurd h1 (by simp)
        · exact h1
      unfold collect_results
      rw [ih hrest]
      rfl

/-- Collecting all-successful results succeeds with exactly those values. -/
theorem collect_results_map_some (bals : List ℕ) :
    collect_results (bals.map some) = some bals := by
  induction bals with
  | nil => rfl
  | cons b bs ih =>
    unfold collect_results
    rw [List.map_cons]
    simp [ih]

/-- When every queried balance covers the tracked unstaked amount, the
pool update succeeds pointwise. -/
theorem update_pools_eq (ps : List RefreshPool) (bs : List ℕ)
    (hlen : ps.length = bs.length)
    (hle : ∀ pb ∈ ps.zip bs, pb.1.total_unstaked ≤ pb.2) :
    update_pools ps bs =
      some ((ps.zip bs).map fun pb =>
        ({ total_staked := pb.2 - pb.1.total_unstaked,
           total_unstaked := pb.1.total_unstaked } : RefreshPool)) := by
  induction ps generalizing bs with
  | nil =>
    cases bs with
    | nil => rfl
    | cons b bs => simp at hlen
  | cons p ps ih =>
    cases bs with
    | nil => simp at hlen
    | cons b bs =>
      have hpb : p.total_unstaked ≤ b := by
        exact hle (p, b) (by simp [List.zip_cons_cons])
      have hlen2 : ps.length = bs.length := by simpa using hlen
      have hle2 : ∀ pb ∈ ps.zip bs, pb.1.total_unstaked ≤ pb.2 := by
        intro pb hpb2
        exact hle pb (by simp [List.zip_cons_cons, hpb2])
      unfold update_pools
      rw [if_pos hpb, ih bs hlen2 hle2]
      simp [List.zip_cons_cons]

/-- **C7.**  If any per-pool promise result failed (or was unparsable),
`total_staked_callback` leaves every pool, the vault's `total_staked` and
the epoch stamp unchanged and only releases the lock; if all results
succeeded and each covers its pool's tracked unstaked amount, every pool's
`total_staked` becomes its queried balance minus its `total_unstaked`, the
vault's `total_staked` becomes the sum over pools, and the epoch stamp is
set to the current epoch. -/
theorem total_staked_callback_all_or_nothing
    (s : RefreshState) (results : List (Option ℕ)) (epoch : ℕ) :
    (none ∈ results →
      total_staked_callback s results epoch =
        some { s with is_locked := false }) ∧
    (∀ bals : List ℕ, results = bals.map some →
      s.pools.length = bals.length →
      (∀ pb ∈ s.pools.zip bals, pb.1.total_unstaked ≤ pb.2) →
      (((s.pools.zip bals).map fun pb => pb.2 - pb.1.total_unstaked).sum
          < U128_BOUND) →
      total_staked_callback s results epoch =
        some { pools := (s.pools.zip bals).map fun pb =>
                 ({ total_staked := pb.2 - pb.1.total_unstaked,
                    total_unstaked := pb.1.total_unstaked } : RefreshPool),
               total_staked :=
                 ((s.pools.zip bals).map fun pb =>
                   pb.2 - pb.1.total_unstaked).sum,
               total_staked_last_updated_at := epoch,
               is_locked := false }) := by
  constructor
  · intro hfail
    unfold total_staked_callback
    rw [collect_results_of_mem_none results hfail]
  · intro bals hres hlen hle hsum
    unfold total_staked_callback
    rw [hres, collect_results_map_some]
    dsimp only
    rw [update_pools_eq s.pools bals hlen hle]
    simp only [Option.some_bind]
    have hmaps : (((s.pools.zip bals).map fun pb =>
        ({ total_staked := pb.2 - pb.1.total_unstaked,
           total_unstaked := pb.1.total_unstaked } : RefreshPool)).map
          RefreshPool.total_staked) =
        (s.pools.zip bals).map fun pb => pb.2 - pb.1.total_unstaked := by
      rw [List.map_map]
      rfl
    rw [hmaps, if_pos hsum]

/-- Witness for C7 at a concrete two-pool state: both queries succeed and
the vault total becomes `(100 − 40) + (50 − 0) = 110`, stamped with
epoch 9. -/
theorem total_staked_callback_all_or_nothing_witness :
    total_staked_callback
      ⟨[⟨30, 40⟩, ⟨20, 0⟩], 50, 3, true⟩ [some 100, some 50] 9 =
      some ⟨[⟨60, 40⟩, ⟨50, 0⟩], 110, 9, false⟩ := by
  have h := (total_staked_callback_all_or_nothing
    ⟨[⟨30, 40⟩, ⟨20, 0⟩], 50, 3, true⟩ [some 100, some 50] 9).2
    [100, 50] rfl (by decide) (by decide) (by decide)
  rw [h]
  rfl

end NearStaker
